/-
Verification of the rank-interpolation engine (backend/rank_calculator.py)
and the tiered recommendation partitioner (backend/school_recommender.py).

Scores are modelled as rationals (the Python code works with floats whose
values in all facts below are exactly representable), cumulative counts as
naturals, ranks as integers.  Python's builtin `round` and `np.round`
(round half to even) are modelled by `roundHalfEven`.
-/
import Mathlib

namespace Volunteer

/-- Round half to even (Python's builtin `round` and numpy's `np.round`). -/
def roundHalfEven (q : ℚ) : ℤ :=
  if q - q.floor < 1/2 then q.floor
  else if q - q.floor > 1/2 then q.floor + 1
  else if 2 ∣ q.floor then q.floor else q.floor + 1

/-- Round half away from zero ("round half up on a positive value"), the
rounding rule the specification ascribes to the interpolator. -/
def roundHalfAway (q : ℚ) : ℤ :=
  if 0 ≤ q then (q + 1/2).floor else -(-q + 1/2).floor

/-- Absolute value on the rationals, written computably. -/
def qAbs (q : ℚ) : ℚ := if q < 0 then -q else q

/-- `np.isclose(a, b)` with the default tolerances
`rtol = 1e-5`, `atol = 1e-8`: `|a - b| <= atol + rtol * |b|`. -/
def npIsClose (a b : ℚ) : Bool :=
  qAbs (a - b) ≤ 1/100000000 + (1/100000) * qAbs b

/-- The two populations (`rank_type` strings `'city'` / `'inner'`). -/
inductive Population where
  | city
  | inner
deriving DecidableEq

/-- A score → cumulative-count dictionary (`score_rank_map_city` /
`score_rank_map_inner`), as an association list with distinct keys. -/
def lookup (m : List (ℚ × ℕ)) (q : ℚ) : Option ℕ :=
  (m.find? (fun p => p.1 == q)).map Prod.snd

/-- The state an `ImprovedRankCalculator` holds after `_load_data`. -/
structure RankState where
  mapCity : List (ℚ × ℕ)
  mapInner : List (ℚ × ℕ)
  sortedScores : List ℚ
  totalCity : ℕ
  totalInner : ℕ
deriving DecidableEq

def popMap (st : RankState) : Population → List (ℚ × ℕ)
  | .city => st.mapCity
  | .inner => st.mapInner

def popTotal (st : RankState) : Population → ℕ
  | .city => st.totalCity
  | .inner => st.totalInner

/-- The neighbour-finding loop of `_linear_interpolate` (lines 100–106):
walk `sorted_scores`, remembering the last score above the query in
`higher`; on the first score below the query while `higher` is set, stop
with that score as `lower`. -/
def findNeighborsAux (score : ℚ) : List ℚ → Option ℚ → Option ℚ × Option ℚ
  | [], h => (h, none)
  | s :: rest, h =>
    if s > score then findNeighborsAux score rest (some s)
    else if s < score then
      match h with
      | some hv => (some hv, some s)
      | none => findNeighborsAux score rest none
    else findNeighborsAux score rest h

/-- `higher_score is None or s < higher_score`. -/
def noneOrLt (s : ℚ) : Option ℚ → Bool
  | none => true
  | some v => s < v

/-- `lower_score is None or s > lower_score`. -/
def noneOrGt (s : ℚ) : Option ℚ → Bool
  | none => true
  | some v => s > v

/-- One iteration of the fallback loop of `_linear_interpolate`
(lines 117–122): for a score `s` carrying data, move `higher` down to `s`
when `s` lies strictly between the query and the current `higher`, else
move `lower` up when `s` lies strictly between the current `lower` and the
query. -/
def widenStep (map : List (ℚ × ℕ)) (score : ℚ)
    (hl : Option ℚ × Option ℚ) (s : ℚ) : Option ℚ × Option ℚ :=
  if (lookup map s).isSome then
    if s > score ∧ noneOrLt s hl.1 then
      (some s, hl.2)
    else if s < score ∧ noneOrGt s hl.2 then
      (hl.1, some s)
    else hl
  else hl

/-- The whole fallback loop of `_linear_interpolate` (lines 117–122). -/
def widenSearch (map : List (ℚ × ℕ)) (scores : List ℚ) (score : ℚ)
    (hl : Option ℚ × Option ℚ) : Option ℚ × Option ℚ :=
  scores.foldl (widenStep map score) hl

/-- Lines 125–147 of `_linear_interpolate`: if after the fallback loop one
side still has no data for the population, return the one-sided stored
count (or the total when neither side has data); otherwise linearly
interpolate between the two stored counts and round half to even
(`int(round(...))`). -/
def interpFinish (map : List (ℚ × ℕ)) (total : ℕ) (score hs ls : ℚ) : ℤ :=
  match lookup map hs, lookup map ls with
  | some hr, some lr =>
    roundHalfEven ((hr : ℚ) + ((score - hs) / (ls - hs)) * ((lr : ℚ) - (hr : ℚ)))
  | some hr, none => (hr : ℤ)
  | none, some lr => (lr : ℤ)
  | none, none => (total : ℤ)

/-- `ImprovedRankCalculator._linear_interpolate`. -/
def linearInterpolate (st : RankState) (p : Population) (score : ℚ) : ℤ :=
  let map := popMap st p
  let total := popTotal st p
  match lookup map score with
  | some r => (r : ℤ)
  | none =>
    match findNeighborsAux score st.sortedScores none with
    | (none, _) => 1
    | (some _, none) => (total : ℤ)
    | (some hs, some ls) =>
      let hl :=
        if (lookup map hs).isNone || (lookup map ls).isNone then
          widenSearch map st.sortedScores score (some hs, some ls)
        else (some hs, some ls)
      match hl with
      | (some hs', some ls') => interpFinish map total score hs' ls'
      | (some hs', none) => interpFinish map total score hs' hs'
      | (none, some ls') => interpFinish map total score ls' ls'
      | (none, none) => (total : ℤ)

/-- Round to two decimal places, half to even (Python `round(x, 2)`). -/
def round2 (q : ℚ) : ℚ := (roundHalfEven (q * 100) : ℚ) / 100

/-- The result dictionary of `calculate_rank` (the fields the claims
mention). -/
structure RankResult where
  score : ℚ
  city_rank : ℤ
  inner_rank : ℤ
  total_students_city : ℕ
  total_students_inner : ℕ
  city_percentage : ℚ
  city_percentile : ℚ
  inner_percentage : ℚ
  inner_percentile : ℚ
deriving DecidableEq

def resultRank (r : RankResult) : Population → ℤ
  | .city => r.city_rank
  | .inner => r.inner_rank

/-- `ImprovedRankCalculator.calculate_rank`: validate the score (range and
the `np.isclose` two-decimal check), interpolate both populations, clamp
each rank to `[1, total]`, and derive the percentage/percentile figures. -/
def calculateRank (st : RankState) (score : ℚ) : Except String RankResult :=
  if ¬ (0 ≤ score ∧ score ≤ 800) then .error "score out of range"
  else if ¬ npIsClose (score * 100) ((roundHalfEven (score * 100) : ℤ) : ℚ) then
    .error "score has more than two decimal digits"
  else
    let cityRank : ℤ := max 1 (min (linearInterpolate st .city score) (st.totalCity : ℤ))
    let innerRank : ℤ := max 1 (min (linearInterpolate st .inner score) (st.totalInner : ℤ))
    .ok
      { score := score
        city_rank := cityRank
        inner_rank := innerRank
        total_students_city := st.totalCity
        total_students_inner := st.totalInner
        city_percentage := round2 ((cityRank : ℚ) / (st.totalCity : ℚ) * 100)
        city_percentile :=
          round2 (((st.totalCity : ℚ) - (cityRank : ℚ) + 1) / (st.totalCity : ℚ) * 100)
        inner_percentage := round2 ((innerRank : ℚ) / (st.totalInner : ℚ) * 100)
        inner_percentile :=
          round2 (((st.totalInner : ℚ) - (innerRank : ℚ) + 1) / (st.totalInner : ℚ) * 100) }

/-! ### The recommendation partitioner (`school_recommender.py`) -/

/-- An institution record: an identifier plus its admission rank for the
requested year (`s.get(f"{year}年录取位次", 0)`; `0` models a missing or
zero figure). -/
structure School where
  name : ℕ
  adm : ℕ
deriving DecidableEq

/-- `ratio = sch_rank / rank`. -/
def ratio (rank : ℤ) (s : School) : ℚ := (s.adm : ℚ) / (rank : ℚ)

/-- The three tier buckets 冲 / 稳 / 保 (reach / match / safety). -/
structure Buckets where
  attack : List School
  stable : List School
  safe : List School
deriving DecidableEq

/-- `0.75 <= ratio <= 0.95` — the 冲 (reach) window of the main pass. -/
def attackWin (rank : ℤ) (s : School) : Bool :=
  (0.75 : ℚ) ≤ ratio rank s ∧ ratio rank s ≤ 0.95

/-- `0.95 < ratio <= 1.15` — the 稳 (match) window of the main pass. -/
def stableWin (rank : ℤ) (s : School) : Bool :=
  (0.95 : ℚ) < ratio rank s ∧ ratio rank s ≤ 1.15

/-- `1.15 < ratio <= 1.4` — the 保 (safety) window of the main pass. -/
def safeWin (rank : ℤ) (s : School) : Bool :=
  (1.15 : ℚ) < ratio rank s ∧ ratio rank s ≤ 1.4

/-- The body of the classification loop of `recommend_schools_by_rank`
(lines 76–88): the three `if/elif` ratio windows, each guarded by its
bucket not being full yet. -/
def mainStep (rank : ℤ) (na ns nf : ℕ) (b : Buckets) (s : School) : Buckets :=
  if attackWin rank s ∧ b.attack.length < na then
    { b with attack := b.attack ++ [s] }
  else if stableWin rank s ∧ b.stable.length < ns then
    { b with stable := b.stable ++ [s] }
  else if safeWin rank s ∧ b.safe.length < nf then
    { b with safe := b.safe ++ [s] }
  else b

/-- The early-exit test of the classification loop (lines 91–96). -/
def allFull (na ns nf : ℕ) (b : Buckets) : Bool :=
  b.attack.length = na ∧ b.stable.length = ns ∧ b.safe.length = nf

/-- The classification loop of `recommend_schools_by_rank` over the sorted
school list, with the early `break` once all three buckets are full. -/
def mainLoop (rank : ℤ) (na ns nf : ℕ) : List School → Buckets → Buckets
  | [], b => b
  | s :: rest, b =>
    let b' := mainStep rank na ns nf b s
    if allFull na ns nf b' then b' else mainLoop rank na ns nf rest b'

/-- `s not in attack and s not in stable and s not in safe`. -/
def notPlaced (b : Buckets) (s : School) : Bool :=
  ¬ (s ∈ b.attack ∨ s ∈ b.stable ∨ s ∈ b.safe)

/-- `0.7 <= ratio <= 0.95` — the widened reach window of the backfill. -/
def attackWide (rank : ℤ) (s : School) : Bool :=
  (0.7 : ℚ) ≤ ratio rank s ∧ ratio rank s ≤ 0.95

/-- `0.9 <= ratio <= 1.2` — the widened match window of the backfill. -/
def stableWide (rank : ℤ) (s : School) : Bool :=
  (0.9 : ℚ) ≤ ratio rank s ∧ ratio rank s ≤ 1.2

/-- `1.1 <= ratio <= 1.6` — the widened safety window of the backfill. -/
def safeWide (rank : ℤ) (s : School) : Bool :=
  (1.1 : ℚ) ≤ ratio rank s ∧ ratio rank s ≤ 1.6

/-- `_fill_intelligently`: for each underfull bucket in the order
attack / stable / safe, re-scan the sorted school list for schools not
placed anywhere yet whose ratio lies in the widened window, and append a
prefix of them.  The attack extension is visible to the stable scan and
both are visible to the safe scan (the Python closure mutates the lists in
place). -/
def fillIntelligently (rank : ℤ) (na ns nf : ℕ) (schools : List School)
    (b : Buckets) : Buckets :=
  let attack' :=
    if b.attack.length < na then
      b.attack ++ (schools.filter (fun s =>
        notPlaced b s && attackWide rank s)).take (na - b.attack.length)
    else b.attack
  let b1 : Buckets := { b with attack := attack' }
  let stable' :=
    if b.stable.length < ns then
      b.stable ++ (schools.filter (fun s =>
        notPlaced b1 s && stableWide rank s)).take (ns - b.stable.length)
    else b.stable
  let b2 : Buckets := { b1 with stable := stable' }
  let safe' :=
    if b.safe.length < nf then
      b.safe ++ (schools.filter (fun s =>
        notPlaced b2 s && safeWide rank s)).take (nf - b.safe.length)
    else b.safe
  { attack := attack', stable := stable', safe := safe' }

/-- `recommend_schools_by_rank`: validate the inputs, drop schools with a
missing/zero admission rank, sort ascending by admission rank, run the
classification pass, then the backfill pass. -/
def recommendSchoolsByRank (rank : ℤ) (na ns nf : ℕ) (data : List School) :
    Except String Buckets :=
  if rank ≤ 0 then .error "rank must be a positive integer"
  else if na = 0 ∨ ns = 0 ∨ nf = 0 then .error "scheme counts must be positive"
  else
    let schools := (data.filter (fun s => s.adm ≠ 0)).insertionSort
      (fun a b => a.adm ≤ b.adm)
    .ok (fillIntelligently rank na ns nf schools
      (mainLoop rank na ns nf schools ⟨[], [], []⟩))

/-! ### Concrete loaded states and institution tables used as test inputs -/

/-- The specification's interpolation scenario: wide-population counts
`{800:1, 700:1000, 600:5000}` (the narrow population is given the same
table). -/
def stScenario : RankState :=
  { mapCity := [(800, 1), (700, 1000), (600, 5000)]
    mapInner := [(800, 1), (700, 1000), (600, 5000)]
    sortedScores := [800, 700, 600]
    totalCity := 5000
    totalInner := 5000 }

/-- A year whose score 790 carries wide-population data only, while 800 and
700 carry data for both populations. -/
def stMixed : RankState :=
  { mapCity := [(800, 5), (790, 50), (700, 2000)]
    mapInner := [(800, 1), (700, 1000)]
    sortedScores := [800, 790, 700]
    totalCity := 2000
    totalInner := 1000 }

/-- A year where the scores 795 and 793 carry wide-population data only;
both populations' stored counts are monotonically non-increasing in the
score. -/
def stGap : RankState :=
  { mapCity := [(800, 10), (795, 100), (793, 200), (790, 300), (700, 5000)]
    mapInner := [(800, 1), (790, 500), (700, 1000)]
    sortedScores := [800, 795, 793, 790, 700]
    totalCity := 5000
    totalInner := 1000 }

/-- A small year whose highest stored score is 780, so that 800 exceeds
every stored score and 0 is below every stored score. -/
def stSmallYear : RankState :=
  { mapCity := [(780, 5), (700, 1000)]
    mapInner := [(780, 5), (700, 1000)]
    sortedScores := [780, 700]
    totalCity := 1000
    totalInner := 1000 }

/-- Cumulative counts are monotonically non-increasing as the score
increases (the Distribution Table invariant the spec states). -/
abbrev monotoneMap (m : List (ℚ × ℕ)) : Prop :=
  ∀ p1 ∈ m, ∀ p2 ∈ m, p1.1 > p2.1 → p1.2 ≤ p2.2

/-- Three institutions whose admission ranks are 72, 80 and 90. -/
def threeSchools : List School := [⟨1, 72⟩, ⟨2, 80⟩, ⟨3, 90⟩]

/-- The buckets `recommend_schools_by_rank(100, scheme=(3,1,1))` produces on
`threeSchools`. -/
def exampleBuckets : Buckets := ⟨[⟨2, 80⟩, ⟨3, 90⟩, ⟨1, 72⟩], [], []⟩

/-! ### Theorems -/

set_option maxRecDepth 2000

lemma ratFloor_eq_intFloor (q : ℚ) : q.floor = ⌊q⌋ := by
  rw [Rat.floor_def', Rat.floor_def]

lemma le_roundHalfEven (a : ℤ) (q : ℚ) (h : (a : ℚ) ≤ q) : a ≤ roundHalfEven q := by
  have h1 : a ≤ ⌊q⌋ := Int.le_floor.mpr h
  unfold roundHalfEven
  rw [ratFloor_eq_intFloor]
  split_ifs <;> omega

lemma roundHalfEven_le (q : ℚ) (b : ℤ) (h : q ≤ (b : ℚ)) : roundHalfEven q ≤ b := by
  have h1 : ⌊q⌋ ≤ b := by
    have := Int.floor_le_floor h
    simpa using this
  unfold roundHalfEven
  rw [ratFloor_eq_intFloor]
  split_ifs with h2 h3 h4
  · exact h1
  · have hq : (⌊q⌋ : ℚ) < q := by linarith
    have : ⌊q⌋ < b := by exact_mod_cast hq.trans_le h
    omega
  · exact h1
  · have hq : (⌊q⌋ : ℚ) < q := by push_neg at h2; linarith
    have : ⌊q⌋ < b := by exact_mod_cast hq.trans_le h
    omega

lemma lookup_mem {m : List (ℚ × ℕ)} {q : ℚ} {r : ℕ} (h : lookup m q = some r) :
    q ∈ m.map Prod.fst := by
  unfold lookup at h
  cases hf : List.find? (fun p => p.1 == q) m with
  | none => rw [hf] at h; simp at h
  | some pr =>
    have h1 : pr.1 = q := by simpa using List.find?_some hf
    have h2 : pr ∈ m := List.mem_of_find?_eq_some hf
    exact h1 ▸ List.mem_map_of_mem Prod.fst h2


lemma findNeighborsAux_all_lt (score : ℚ) (l : List ℚ)
    (hall : ∀ s ∈ l, s < score) :
    findNeighborsAux score l none = (none, none) := by
  induction l with
  | nil => rfl
  | cons s t ih =>
    have hs := hall s (by simp)
    rw [findNeighborsAux]
    rw [if_neg (by push_neg; exact hs.le), if_pos hs]
    exact ih (fun x hx => hall x (by simp [hx]))

lemma findNeighborsAux_all_gt (score : ℚ) (l : List ℚ)
    (hall : ∀ s ∈ l, score < s) :
    ∀ h0, (findNeighborsAux score l h0).2 = none ∧
      ((findNeighborsAux score l h0).1 = none → h0 = none ∧ l = []) := by
  induction l with
  | nil => intro h0; exact ⟨rfl, fun h => ⟨h, rfl⟩⟩
  | cons s t ih =>
    intro h0
    have hs := hall s (by simp)
    simp only [findNeighborsAux]
    rw [if_pos hs]
    have iht := ih (fun x hx => hall x (by simp [hx])) (some s)
    exact ⟨iht.1, fun h => absurd (iht.2 h).1 (by simp)⟩

/-- Validation passed: `calculate_rank` returns its result record. -/
lemma calculateRank_ok (st : RankState) (score : ℚ)
    (hrange : 0 ≤ score ∧ score ≤ 800)
    (hprec : npIsClose (score * 100) ((roundHalfEven (score * 100) : ℤ) : ℚ) = true)
    (res : RankResult) (hres : calculateRank st score = .ok res) :
    ∀ p, resultRank res p =
      max 1 (min (linearInterpolate st p score) ((popTotal st p : ℕ) : ℤ)) := by
  rw [calculateRank, if_neg (not_not_intro hrange),
    if_neg (by rw [hprec]; exact fun h => h rfl)] at hres
  cases Except.ok.inj hres
  intro p
  cases p <;> rfl

/-- C1: for either population, when the query score is stored in that
population's dictionary with a cumulative count in `[1, total]` (as every
count of a loaded year is), `calculate_rank` returns that stored count
verbatim as the rank, with no adjustment. -/
theorem exact_match_returns_stored (st : RankState) (p : Population)
    (score : ℚ) (r : ℕ)
    (hin : lookup (popMap st p) score = some r)
    (hr1 : 1 ≤ r) (hrt : r ≤ popTotal st p)
    (hrange : 0 ≤ score ∧ score ≤ 800)
    (hprec : npIsClose (score * 100) ((roundHalfEven (score * 100) : ℤ) : ℚ) = true)
    (res : RankResult) (hres : calculateRank st score = .ok res) :
    resultRank res p = (r : ℤ) := by
  rw [calculateRank_ok st score hrange hprec res hres p]
  simp only [linearInterpolate, hin]
  have h1 : (1 : ℤ) ≤ (r : ℤ) := by exact_mod_cast hr1
  have h2 : ((r : ℕ) : ℤ) ≤ ((popTotal st p : ℕ) : ℤ) := by exact_mod_cast hrt
  omega


lemma linearInterpolate_above (st : RankState) (p : Population) (score : ℚ)
    (hnotin : lookup (popMap st p) score = none)
    (hall : ∀ s ∈ st.sortedScores, s < score) :
    linearInterpolate st p score = 1 := by
  simp only [linearInterpolate, hnotin, findNeighborsAux_all_lt score _ hall]

lemma linearInterpolate_below (st : RankState) (p : Population) (score : ℚ)
    (hnotin : lookup (popMap st p) score = none)
    (hne : st.sortedScores ≠ [])
    (hall : ∀ s ∈ st.sortedScores, score < s) :
    linearInterpolate st p score = ((popTotal st p : ℕ) : ℤ) := by
  simp only [linearInterpolate, hnotin]
  obtain ⟨h2, h1⟩ := findNeighborsAux_all_gt score st.sortedScores hall none
  rcases hpr : findNeighborsAux score st.sortedScores none with ⟨o1, o2⟩
  rw [hpr] at h2 h1
  simp only at h2 h1
  subst h2
  cases o1 with
  | none => exact absurd (h1 rfl).2 hne
  | some v => simp

/-- C4: for a loaded state (population keys inside the score axis, positive
total, nonempty score list), a valid query score exceeding every known
score is ranked 1 (BoundaryHigh), and one below every known score is ranked
at the population total (BoundaryLow). -/
theorem boundary_rank (st : RankState) (p : Population) (score : ℚ)
    (hkeys : ∀ q ∈ (popMap st p).map Prod.fst, q ∈ st.sortedScores)
    (htot : 1 ≤ popTotal st p)
    (hrange : 0 ≤ score ∧ score ≤ 800)
    (hprec : npIsClose (score * 100) ((roundHalfEven (score * 100) : ℤ) : ℚ) = true)
    (res : RankResult) (hres : calculateRank st score = .ok res) :
    ((∀ s ∈ st.sortedScores, s < score) → resultRank res p = 1) ∧
    (st.sortedScores ≠ [] → (∀ s ∈ st.sortedScores, score < s) →
      resultRank res p = ((popTotal st p : ℕ) : ℤ)) := by
  have htot' : (1 : ℤ) ≤ ((popTotal st p : ℕ) : ℤ) := by exact_mod_cast htot
  constructor
  · intro hall
    have hnotin : lookup (popMap st p) score = none := by
      cases hl : lookup (popMap st p) score with
      | none => rfl
      | some r => exact absurd (hall score (hkeys score (lookup_mem hl))) (lt_irrefl score)
    rw [calculateRank_ok st score hrange hprec res hres p,
      linearInterpolate_above st p score hnotin hall]
    omega
  · intro hne hall
    have hnotin : lookup (popMap st p) score = none := by
      cases hl : lookup (popMap st p) score with
      | none => rfl
      | some r => exact absurd (hall score (hkeys score (lookup_mem hl))) (lt_irrefl score)
    rw [calculateRank_ok st score hrange hprec res hres p,
      linearInterpolate_below st p score hnotin hne hall]
    omega


/-- C2 (amended): a score strictly inside a bracketing pair both of whose
endpoints carry data for the population is ranked by linear interpolation
between the two stored counts, rounded half to even. -/
theorem interpolated_rank_half_even (st : RankState) (p : Population)
    (score hs ls : ℚ) (rh rl : ℕ)
    (hnotin : lookup (popMap st p) score = none)
    (hnb : findNeighborsAux score st.sortedScores none = (some hs, some ls))
    (hlt : ls < score) (hgt : score < hs)
    (hhs : lookup (popMap st p) hs = some rh)
    (hls : lookup (popMap st p) ls = some rl)
    (hr1 : 1 ≤ rh) (hmono : rh ≤ rl) (hrt : rl ≤ popTotal st p)
    (hrange : 0 ≤ score ∧ score ≤ 800)
    (hprec : npIsClose (score * 100) ((roundHalfEven (score * 100) : ℤ) : ℚ) = true)
    (res : RankResult) (hres : calculateRank st score = .ok res) :
    resultRank res p =
      roundHalfEven ((rh : ℚ) + ((score - hs) / (ls - hs)) * ((rl : ℚ) - (rh : ℚ))) := by
  set f : ℚ := (score - hs) / (ls - hs) with hf
  set q : ℚ := (rh : ℚ) + f * ((rl : ℚ) - (rh : ℚ)) with hq
  have hden : ls - hs < 0 := by linarith
  have hnum : score - hs < 0 := by linarith
  have hf0 : 0 ≤ f := div_nonneg_iff.2 (Or.inr ⟨hnum.le, hden.le⟩)
  have hf1 : f ≤ 1 := div_le_one_iff.2 (Or.inr (Or.inr ⟨hden, by linarith⟩))
  have hcast : (rh : ℚ) ≤ (rl : ℚ) := by exact_mod_cast hmono
  have hqlb : (rh : ℚ) ≤ q := by
    have := mul_nonneg hf0 (by linarith : (0 : ℚ) ≤ (rl : ℚ) - (rh : ℚ))
    linarith
  have hqub : q ≤ (rl : ℚ) := by
    have := mul_le_of_le_one_left (by linarith : (0 : ℚ) ≤ (rl : ℚ) - (rh : ℚ)) hf1
    linarith
  have hlow : ((rh : ℕ) : ℤ) ≤ roundHalfEven q :=
    le_roundHalfEven _ _ (by push_cast; exact hqlb)
  have hhigh : roundHalfEven q ≤ ((rl : ℕ) : ℤ) :=
    roundHalfEven_le _ _ (by push_cast; exact hqub)
  have hli : linearInterpolate st p score = roundHalfEven q := by
    simp only [linearInterpolate, hnotin, hnb, hhs, hls, Option.isNone_some,
      Bool.or_self, Bool.false_eq_true, if_false, interpFinish]
  rw [calculateRank_ok st score hrange hprec res hres p, hli]
  have h1 : (1 : ℤ) ≤ ((rh : ℕ) : ℤ) := by exact_mod_cast hr1
  have h2 : ((rl : ℕ) : ℤ) ≤ ((popTotal st p : ℕ) : ℤ) := by exact_mod_cast hrt
  omega


/-- C9: for every successful `calculate_rank` call with positive totals,
the returned percentage is `round2(rank/total*100)` and the returned
percentile is `round2((total - rank + 1)/total*100)`, for both
populations. -/
theorem percent_formulas (st : RankState) (score : ℚ)
    (htc : 0 < st.totalCity) (hti : 0 < st.totalInner)
    (res : RankResult) (hres : calculateRank st score = .ok res) :
    res.city_percentage = round2 ((res.city_rank : ℚ) / (st.totalCity : ℚ) * 100) ∧
    res.city_percentile =
      round2 (((st.totalCity : ℚ) - (res.city_rank : ℚ) + 1) / (st.totalCity : ℚ) * 100) ∧
    res.inner_percentage = round2 ((res.inner_rank : ℚ) / (st.totalInner : ℚ) * 100) ∧
    res.inner_percentile =
      round2 (((st.totalInner : ℚ) - (res.inner_rank : ℚ) + 1) / (st.totalInner : ℚ) * 100) := by
  rw [calculateRank] at hres
  split_ifs at hres
  cases Except.ok.inj hres
  exact ⟨rfl, rfl, rfl, rfl⟩


lemma win_exclusive (rank : ℤ) (s : School) :
    (attackWin rank s = true → stableWin rank s = false ∧ safeWin rank s = false) ∧
    (stableWin rank s = true → safeWin rank s = false) := by
  simp only [attackWin, stableWin, safeWin, decide_eq_true_eq, decide_eq_false_iff_not]
  constructor
  · rintro ⟨h1, h2⟩
    exact ⟨fun h => absurd h.1 (by linarith), fun h => absurd h.1 (by linarith)⟩
  · rintro ⟨h1, h2⟩
    exact fun h => absurd h.1 (by linarith)

lemma mainLoop_characterization (rank : ℤ) (na ns nf : ℕ) :
    ∀ (l : List School) (b : Buckets),
      mainLoop rank na ns nf l b =
        { attack := b.attack ++ (l.filter (attackWin rank)).take (na - b.attack.length),
          stable := b.stable ++ (l.filter (stableWin rank)).take (ns - b.stable.length),
          safe := b.safe ++ (l.filter (safeWin rank)).take (nf - b.safe.length) } := by
  intro l
  induction l with
  | nil => intro b; simp [mainLoop]
  | cons s t ih =>
    intro b
    by_cases hA : attackWin rank s
    · obtain ⟨hS, hF⟩ := (win_exclusive rank s).1 hA
      rw [List.filter_cons_of_pos hA, List.filter_cons_of_neg (by simp [hS]),
        List.filter_cons_of_neg (by simp [hF])]
      by_cases hlenA : b.attack.length < na
      · have hstep : mainStep rank na ns nf b s = { b with attack := b.attack ++ [s] } := by
          rw [mainStep, if_pos ⟨hA, hlenA⟩]
        rw [mainLoop, hstep]
        split_ifs with hfull
        · simp only [allFull, decide_eq_true_eq, List.length_append,
            List.length_singleton] at hfull
          obtain ⟨h1, h2, h3⟩ := hfull
          simp [show na - b.attack.length = 1 by omega,
            show ns - b.stable.length = 0 by omega,
            show nf - b.safe.length = 0 by omega, List.take_succ_cons]
        · rw [ih]
          simp [List.length_append, List.append_assoc,
            show na - b.attack.length = (na - (b.attack.length + 1)) + 1 by omega,
            List.take_succ_cons]
      · have hstep : mainStep rank na ns nf b s = b := by
          rw [mainStep, if_neg (by tauto), if_neg (by simp [hS]), if_neg (by simp [hF])]
        rw [mainLoop, hstep]
        split_ifs with hfull
        · simp only [allFull, decide_eq_true_eq] at hfull
          obtain ⟨h1, h2, h3⟩ := hfull
          simp [show na - b.attack.length = 0 by omega,
            show ns - b.stable.length = 0 by omega,
            show nf - b.safe.length = 0 by omega]
        · rw [ih]
          simp [show na - b.attack.length = 0 by omega]
    · by_cases hSw : stableWin rank s
      · have hF := (win_exclusive rank s).2 hSw
        rw [List.filter_cons_of_neg (by simp [hA]), List.filter_cons_of_pos hSw,
          List.filter_cons_of_neg (by simp [hF])]
        by_cases hlenS : b.stable.length < ns
        · have hstep : mainStep rank na ns nf b s = { b with stable := b.stable ++ [s] } := by
            rw [mainStep, if_neg (by tauto), if_pos ⟨hSw, hlenS⟩]
          rw [mainLoop, hstep]
          split_ifs with hfull
          · simp only [allFull, decide_eq_true_eq, List.length_append,
              List.length_singleton] at hfull
            obtain ⟨h1, h2, h3⟩ := hfull
            simp [show na - b.attack.length = 0 by omega,
              show ns - b.stable.length = 1 by omega,
              show nf - b.safe.length = 0 by omega, List.take_succ_cons]
          · rw [ih]
            simp [List.length_append, List.append_assoc,
              show ns - b.stable.length = (ns - (b.stable.length + 1)) + 1 by omega,
              List.take_succ_cons]
        · have hstep : mainStep rank na ns nf b s = b := by
            rw [mainStep, if_neg (by tauto), if_neg (by tauto), if_neg (by simp [hF])]
          rw [mainLoop, hstep]
          split_ifs with hfull
          · simp only [allFull, decide_eq_true_eq] at hfull
            obtain ⟨h1, h2, h3⟩ := hfull
            simp [show na - b.attack.length = 0 by omega,
              show ns - b.stable.length = 0 by omega,
              show nf - b.safe.length = 0 by omega]
          · rw [ih]
            simp [show ns - b.stable.length = 0 by omega]
      · by_cases hFw : safeWin rank s
        · rw [List.filter_cons_of_neg (by simp [hA]), List.filter_cons_of_neg (by simp [hSw]),
            List.filter_cons_of_pos hFw]
          by_cases hlenF : b.safe.length < nf
          · have hstep : mainStep rank na ns nf b s = { b with safe := b.safe ++ [s] } := by
              rw [mainStep, if_neg (by tauto), if_neg (by tauto), if_pos ⟨hFw, hlenF⟩]
            rw [mainLoop, hstep]
            split_ifs with hfull
            · simp only [allFull, decide_eq_true_eq, List.length_append,
                List.length_singleton] at hfull
              obtain ⟨h1, h2, h3⟩ := hfull
              simp [show na - b.attack.length = 0 by omega,
                show ns - b.stable.length = 0 by omega,
                show nf - b.safe.length = 1 by omega, List.take_succ_cons]
            · rw [ih]
              simp [List.length_append, List.append_assoc,
                show nf - b.safe.length = (nf - (b.safe.length + 1)) + 1 by omega,
                List.take_succ_cons]
          · have hstep : mainStep rank na ns nf b s = b := by
              rw [mainStep, if_neg (by tauto), if_neg (by tauto), if_neg (by tauto)]
            rw [mainLoop, hstep]
            split_ifs with hfull
            · simp only [allFull, decide_eq_true_eq] at hfull
              obtain ⟨h1, h2, h3⟩ := hfull
              simp [show na - b.attack.length = 0 by omega,
                show ns - b.stable.length = 0 by omega,
                show nf - b.safe.length = 0 by omega]
            · rw [ih]
              simp [show nf - b.safe.length = 0 by omega]
        · rw [List.filter_cons_of_neg (by simp [hA]), List.filter_cons_of_neg (by simp [hSw]),
            List.filter_cons_of_neg (by simp [hFw])]
          have hstep : mainStep rank na ns nf b s = b := by
            rw [mainStep, if_neg (by tauto), if_neg (by tauto), if_neg (by tauto)]
          rw [mainLoop, hstep]
          split_ifs with hfull
          · simp only [allFull, decide_eq_true_eq] at hfull
            obtain ⟨h1, h2, h3⟩ := hfull
            simp [show na - b.attack.length = 0 by omega,
              show ns - b.stable.length = 0 by omega,
              show nf - b.safe.length = 0 by omega]
          · exact ih b


lemma mem_take_filter {p : School → Bool} {l : List School} {n : ℕ} {x : School}
    (h : x ∈ (l.filter p).take n) : x ∈ l ∧ p x = true := by
  have h1 := List.take_subset _ _ h
  exact ⟨(List.mem_filter.1 h1).1, (List.mem_filter.1 h1).2⟩

lemma fillIntelligently_eq (rank : ℤ) (na ns nf : ℕ) (schools : List School)
    (b : Buckets) (A S F : List School)
    (hA : A = if b.attack.length < na then
        b.attack ++ (schools.filter (fun s =>
          notPlaced b s && attackWide rank s)).take (na - b.attack.length)
      else b.attack)
    (hS : S = if b.stable.length < ns then
        b.stable ++ (schools.filter (fun s =>
          notPlaced ⟨A, b.stable, b.safe⟩ s && stableWide rank s)).take
            (ns - b.stable.length)
      else b.stable)
    (hF : F = if b.safe.length < nf then
        b.safe ++ (schools.filter (fun s =>
          notPlaced ⟨A, S, b.safe⟩ s && safeWide rank s)).take (nf - b.safe.length)
      else b.safe) :
    fillIntelligently rank na ns nf schools b = ⟨A, S, F⟩ := by
  subst hA
  subst hS
  subst hF
  rfl

lemma mem_fill_ext {cond : Prop} [Decidable cond] {base X : List School} {x : School}
    (hx : x ∈ (if cond then base ++ X else base)) : x ∈ base ∨ x ∈ X := by
  split at hx
  · exact (List.mem_append.1 hx).imp id id
  · exact Or.inl hx

lemma length_fill_le {n : ℕ} {base Y : List School} :
    (if base.length < n then base ++ Y.take (n - base.length) else base).length ≤
      max n base.length := by
  split_ifs with h
  · have := List.length_take_le (n - base.length) Y
    rw [List.length_append]
    omega
  · omega


/-- C7 (amended): the three buckets returned by the recommender are
pairwise disjoint and never longer than their requested counts. -/
theorem buckets_disjoint_bounded (rank : ℤ) (na ns nf : ℕ) (data : List School)
    (b : Buckets) (hres : recommendSchoolsByRank rank na ns nf data = .ok b) :
    (∀ x ∈ b.attack, x ∉ b.stable) ∧ (∀ x ∈ b.attack, x ∉ b.safe) ∧
    (∀ x ∈ b.stable, x ∉ b.safe) ∧
    b.attack.length ≤ na ∧ b.stable.length ≤ ns ∧ b.safe.length ≤ nf := by
  rw [recommendSchoolsByRank] at hres
  split_ifs at hres
  set schools := (data.filter (fun s => s.adm ≠ 0)).insertionSort
    (fun a b => a.adm ≤ b.adm) with hschools
  set M := mainLoop rank na ns nf schools ⟨[], [], []⟩ with hMdef
  cases Except.ok.inj hres
  have hchar := mainLoop_characterization rank na ns nf schools ⟨[], [], []⟩
  rw [← hMdef] at hchar
  have hMA : M.attack = (schools.filter (attackWin rank)).take na := by
    rw [hchar]; simp
  have hMS : M.stable = (schools.filter (stableWin rank)).take ns := by
    rw [hchar]; simp
  have hMF : M.safe = (schools.filter (safeWin rank)).take nf := by
    rw [hchar]; simp
  have hMA_win : ∀ x ∈ M.attack, attackWin rank x = true := by
    rw [hMA]; exact fun x hx => (mem_take_filter hx).2
  have hMS_win : ∀ x ∈ M.stable, stableWin rank x = true := by
    rw [hMS]; exact fun x hx => (mem_take_filter hx).2
  have hMF_win : ∀ x ∈ M.safe, safeWin rank x = true := by
    rw [hMF]; exact fun x hx => (mem_take_filter hx).2
  have hMA_len : M.attack.length ≤ na := by rw [hMA]; exact List.length_take_le _ _
  have hMS_len : M.stable.length ≤ ns := by rw [hMS]; exact List.length_take_le _ _
  have hMF_len : M.safe.length ≤ nf := by rw [hMF]; exact List.length_take_le _ _
  rw [fillIntelligently_eq rank na ns nf schools M _ _ _ rfl rfl rfl]
  set A := if M.attack.length < na then
      M.attack ++ (schools.filter (fun s =>
        notPlaced M s && attackWide rank s)).take (na - M.attack.length)
    else M.attack with hAdef
  set S := if M.stable.length < ns then
      M.stable ++ (schools.filter (fun s =>
        notPlaced ⟨A, M.stable, M.safe⟩ s && stableWide rank s)).take
          (ns - M.stable.length)
    else M.stable with hSdef
  set F := if M.safe.length < nf then
      M.safe ++ (schools.filter (fun s =>
        notPlaced ⟨A, S, M.safe⟩ s && safeWide rank s)).take (nf - M.safe.length)
    else M.safe with hFdef
  have hA_mem : ∀ x ∈ A, x ∈ M.attack ∨ (notPlaced M x = true ∧ attackWide rank x = true) := by
    intro x hx
    rcases mem_fill_ext (hAdef ▸ hx) with h | h
    · exact Or.inl h
    · exact Or.inr (by simpa [Bool.and_eq_true] using (mem_take_filter h).2)
  have hS_mem : ∀ x ∈ S, x ∈ M.stable ∨
      (notPlaced ⟨A, M.stable, M.safe⟩ x = true ∧ stableWide rank x = true) := by
    intro x hx
    rcases mem_fill_ext (hSdef ▸ hx) with h | h
    · exact Or.inl h
    · exact Or.inr (by simpa [Bool.and_eq_true] using (mem_take_filter h).2)
  have hF_mem : ∀ x ∈ F, x ∈ M.safe ∨
      (notPlaced ⟨A, S, M.safe⟩ x = true ∧ safeWide rank x = true) := by
    intro x hx
    rcases mem_fill_ext (hFdef ▸ hx) with h | h
    · exact Or.inl h
    · exact Or.inr (by simpa [Bool.and_eq_true] using (mem_take_filter h).2)
  refine ⟨?_, ?_, ?_, ?_, ?_, ?_⟩
  · -- attack ∩ stable = ∅
    intro x hxA hxS
    rcases hS_mem x hxS with hMSx | ⟨hnp, _⟩
    · rcases hA_mem x hxA with hMAx | ⟨hnp, _⟩
      · have h1 := (win_exclusive rank x).1 (hMA_win x hMAx)
        rw [hMS_win x hMSx] at h1
        exact absurd h1.1 (by simp)
      · simp only [notPlaced, decide_eq_true_eq] at hnp
        exact hnp (Or.inr (Or.inl hMSx))
    · simp only [notPlaced, decide_eq_true_eq] at hnp
      exact hnp (Or.inl hxA)
  · -- attack ∩ safe = ∅
    intro x hxA hxF
    rcases hF_mem x hxF with hMFx | ⟨hnp, _⟩
    · rcases hA_mem x hxA with hMAx | ⟨hnp, _⟩
      · have h1 := (win_exclusive rank x).1 (hMA_win x hMAx)
        rw [hMF_win x hMFx] at h1
        exact absurd h1.2 (by simp)
      · simp only [notPlaced, decide_eq_true_eq] at hnp
        exact hnp (Or.inr (Or.inr hMFx))
    · simp only [notPlaced, decide_eq_true_eq] at hnp
      exact hnp (Or.inl hxA)
  · -- stable ∩ safe = ∅
    intro x hxS hxF
    rcases hF_mem x hxF with hMFx | ⟨hnp, _⟩
    · rcases hS_mem x hxS with hMSx | ⟨hnp, _⟩
      · have h1 := (win_exclusive rank x).2 (hMS_win x hMSx)
        rw [hMF_win x hMFx] at h1
        exact absurd h1 (by simp)
      · simp only [notPlaced, decide_eq_true_eq] at hnp
        exact hnp (Or.inr (Or.inr hMFx))
    · simp only [notPlaced, decide_eq_true_eq] at hnp
      exact hnp (Or.inr (Or.inl hxS))
  · show A.length ≤ na
    have := @length_fill_le na M.attack
      ((schools.filter (fun s => notPlaced M s && attackWide rank s)))
    rw [← hAdef] at this
    omega
  · show S.length ≤ ns
    have := @length_fill_le ns M.stable
      ((schools.filter (fun s => notPlaced ⟨A, M.stable, M.safe⟩ s && stableWide rank s)))
    rw [← hSdef] at this
    omega
  · show F.length ≤ nf
    have := @length_fill_le nf M.safe
      ((schools.filter (fun s => notPlaced ⟨A, S, M.safe⟩ s && safeWide rank s)))
    rw [← hFdef] at this
    omega


lemma window_bounds (rank : ℤ) (x : School) :
    (attackWin rank x = true → (0.7 : ℚ) ≤ ratio rank x ∧ ratio rank x ≤ 1.6) ∧
    (stableWin rank x = true → (0.7 : ℚ) ≤ ratio rank x ∧ ratio rank x ≤ 1.6) ∧
    (safeWin rank x = true → (0.7 : ℚ) ≤ ratio rank x ∧ ratio rank x ≤ 1.6) ∧
    (attackWide rank x = true → (0.7 : ℚ) ≤ ratio rank x ∧ ratio rank x ≤ 1.6) ∧
    (stableWide rank x = true → (0.7 : ℚ) ≤ ratio rank x ∧ ratio rank x ≤ 1.6) ∧
    (safeWide rank x = true → (0.7 : ℚ) ≤ ratio rank x ∧ ratio rank x ≤ 1.6) := by
  simp only [attackWin, stableWin, safeWin, attackWide, stableWide, safeWide,
    decide_eq_true_eq]
  refine ⟨fun h => ⟨by linarith [h.1], by linarith [h.2]⟩,
    fun h => ⟨by linarith [h.1], by linarith [h.2]⟩,
    fun h => ⟨by linarith [h.1], by linarith [h.2]⟩,
    fun h => ⟨by linarith [h.1], by linarith [h.2]⟩,
    fun h => ⟨by linarith [h.1], by linarith [h.2]⟩,
    fun h => ⟨by linarith [h.1], by linarith [h.2]⟩⟩

/-- C10: every institution appearing in any bucket returned by
`recommend_schools_by_rank` passed the nonzero-admission-rank filter and
has ratio `admission_rank / rank` inside `[0.70, 1.60]`, the union of the
main and widened windows; schools with missing/zero admission rank never
appear. -/
theorem bucket_members_valid (rank : ℤ) (na ns nf : ℕ) (data : List School)
    (b : Buckets) (x : School)
    (hres : recommendSchoolsByRank rank na ns nf data = .ok b)
    (hx : x ∈ b.attack ∨ x ∈ b.stable ∨ x ∈ b.safe) :
    x.adm ≠ 0 ∧ (0.7 : ℚ) ≤ ratio rank x ∧ ratio rank x ≤ 1.6 := by
  rw [recommendSchoolsByRank] at hres
  split_ifs at hres
  set schools := (data.filter (fun s => s.adm ≠ 0)).insertionSort
    (fun a b => a.adm ≤ b.adm) with hschools
  set M := mainLoop rank na ns nf schools ⟨[], [], []⟩ with hMdef
  cases Except.ok.inj hres
  have hchar := mainLoop_characterization rank na ns nf schools ⟨[], [], []⟩
  rw [← hMdef] at hchar
  have hMA : M.attack = (schools.filter (attackWin rank)).take na := by
    rw [hchar]; simp
  have hMS : M.stable = (schools.filter (stableWin rank)).take ns := by
    rw [hchar]; simp
  have hMF : M.safe = (schools.filter (safeWin rank)).take nf := by
    rw [hchar]; simp
  have hadm : ∀ y ∈ schools, y.adm ≠ 0 := by
    intro y hy
    have h1 : y ∈ data.filter (fun s => s.adm ≠ 0) :=
      (List.perm_insertionSort (fun a b => a.adm ≤ b.adm) _).mem_iff.1 hy
    simpa using (List.mem_filter.1 h1).2
  have hwin := window_bounds rank x
  have hcase : (x ∈ schools ∧ attackWin rank x = true) ∨
      (x ∈ schools ∧ stableWin rank x = true) ∨
      (x ∈ schools ∧ safeWin rank x = true) ∨
      (x ∈ schools ∧ attackWide rank x = true) ∨
      (x ∈ schools ∧ stableWide rank x = true) ∨
      (x ∈ schools ∧ safeWide rank x = true) := by
    rw [fillIntelligently_eq rank na ns nf schools M _ _ _ rfl rfl rfl] at hx
    rcases hx with hx | hx | hx
    · rcases mem_fill_ext hx with h | h
      · exact Or.inl ⟨(mem_take_filter (hMA ▸ h)).1, (mem_take_filter (hMA ▸ h)).2⟩
      · have := mem_take_filter h
        rw [Bool.and_eq_true] at this
        exact Or.inr (Or.inr (Or.inr (Or.inl ⟨this.1, this.2.2⟩)))
    · rcases mem_fill_ext hx with h | h
      · exact Or.inr (Or.inl ⟨(mem_take_filter (hMS ▸ h)).1, (mem_take_filter (hMS ▸ h)).2⟩)
      · have := mem_take_filter h
        rw [Bool.and_eq_true] at this
        exact Or.inr (Or.inr (Or.inr (Or.inr (Or.inl ⟨this.1, this.2.2⟩))))
    · rcases mem_fill_ext hx with h | h
      · exact Or.inr (Or.inr (Or.inl ⟨(mem_take_filter (hMF ▸ h)).1,
          (mem_take_filter (hMF ▸ h)).2⟩))
      · have := mem_take_filter h
        rw [Bool.and_eq_true] at this
        exact Or.inr (Or.inr (Or.inr (Or.inr (Or.inr ⟨this.1, this.2.2⟩))))
  rcases hcase with ⟨hm, hw⟩ | ⟨hm, hw⟩ | ⟨hm, hw⟩ | ⟨hm, hw⟩ | ⟨hm, hw⟩ | ⟨hm, hw⟩
  · exact ⟨hadm x hm, hwin.1 hw⟩
  · exact ⟨hadm x hm, hwin.2.1 hw⟩
  · exact ⟨hadm x hm, hwin.2.2.1 hw⟩
  · exact ⟨hadm x hm, hwin.2.2.2.1 hw⟩
  · exact ⟨hadm x hm, hwin.2.2.2.2.1 hw⟩
  · exact ⟨hadm x hm, hwin.2.2.2.2.2 hw⟩


/-- The fallback loop of `_linear_interpolate` can never move either
bracket: when `hs` is the tightest score above the query and `ls` the
tightest below (as the neighbour search guarantees), every candidate fails
the loop's `s < higher_score` / `s > lower_score` tests, so the loop is
dead code. -/
lemma widenSearch_noop (map : List (ℚ × ℕ)) (scores : List ℚ) (score hs ls : ℚ)
    (hh : ∀ s ∈ scores, s > score → hs ≤ s)
    (hl : ∀ s ∈ scores, s < score → s ≤ ls) :
    widenSearch map scores score (some hs, some ls) = (some hs, some ls) := by
  induction scores with
  | nil => rfl
  | cons s t ih =>
    have hstep : widenStep map score (some hs, some ls) s = (some hs, some ls) := by
      unfold widenStep noneOrLt noneOrGt
      split_ifs with h1 h2 h3
      · exact absurd (hh s (by simp) h2.1) (by simpa using h2.2)
      · exact absurd (hl s (by simp) h3.1) (by simpa using h3.2)
      · rfl
      · rfl
    unfold widenSearch at ih ⊢
    rw [List.foldl_cons, hstep]
    exact ih (fun x hx => hh x (by simp [hx])) (fun x hx => hl x (by simp [hx]))



/-- C6 (amended): in the single main pass over the school list, a school is
appended to reach exactly when its ratio lies in `[0.75, 0.95]` (closed at
0.75, unlike the claimed open bound) and reach is not yet full, to match
exactly when the ratio lies in `(0.95, 1.15]` and match is not yet full, and
to safety exactly when the ratio lies in `(1.15, 1.40]` and safety is not
yet full; a school whose window's bucket is full is skipped and never
reconsidered.  Equivalently each bucket is the first `n` schools passing its
window filter. -/
theorem main_pass_greedy_by_window (rank : ℤ) (na ns nf : ℕ)
    (schools : List School) :
    mainLoop rank na ns nf schools ⟨[], [], []⟩ =
      { attack := (schools.filter (attackWin rank)).take na,
        stable := (schools.filter (stableWin rank)).take ns,
        safe := (schools.filter (safeWin rank)).take nf } := by
  rw [mainLoop_characterization]
  simp

/-- C6 counterexample: with candidate rank 100, an institution with
admission rank 75 has ratio exactly 0.75 — outside the claimed open window
`(0.75, 0.95]` — yet the main pass appends it to the reach bucket, because
the code's test is the closed `0.75 <= ratio <= 0.95`. -/
theorem main_pass_closed_boundary_counterexample :
    mainLoop 100 1 1 1 [⟨1, 75⟩] ⟨[], [], []⟩ = ⟨[⟨1, 75⟩], [], []⟩ ∧
    ¬ ((0.75 : ℚ) < ratio 100 ⟨1, 75⟩) := by
  with_unfolding_all decide

/-- C7 counterexample: `recommend_schools_by_rank(rank=100, scheme=(3,1,1))`
on admission ranks {72, 80, 90} returns the reach bucket `[80, 90, 72]`:
the backfill appended rank 72 after ranks 80 and 90, so the bucket is not
sorted ascending by admission rank, contrary to the claim. -/
theorem buckets_sorted_counterexample :
    (recommendSchoolsByRank 100 3 1 1 threeSchools).toOption.map
      (fun b => b.attack.map School.adm) = some [80, 90, 72] ∧
    ¬ List.Sorted (fun a b => a ≤ b) [80, 90, 72] := by
  constructor
  · with_unfolding_all decide
  · decide

/-- C2 counterexample: on the specification's own scenario
`{800:1, 700:1000, 600:5000}` the code returns `rank(750) = 500`
(`round(500.5)` rounds half to even), while the claimed
round-half-up (away from zero) rule yields 501. -/
theorem interpolation_half_up_counterexample :
    (calculateRank stScenario 750).toOption.map (fun r => r.city_rank) = some 500 ∧
    roundHalfAway ((1 : ℚ) + ((750 - 800) / ((700 : ℚ) - 800)) * (1000 - 1)) = 501 ∧
    (500 : ℤ) ≠ 501 := by
  with_unfolding_all decide

/-- C3 failing input: querying the narrow population at 795 on a year where
790 carries wide-population data only.  The fallback loop leaves the
brackets `(800, 790)` untouched (first conjunct), so the code returns the
higher bracket's stored count 1 (second conjunct) instead of widening to
the population-specific brackets `(800, 1)`–`(700, 1000)` and
interpolating, which would give 51 (third conjunct). -/
theorem widening_dead_code_eval :
    widenSearch stMixed.mapInner stMixed.sortedScores 795 (some 800, some 790) =
      (some 800, some 790) ∧
    (calculateRank stMixed 795).toOption.map (fun r => r.inner_rank) = some 1 ∧
    roundHalfEven ((1 : ℚ) + ((795 - 800) / ((700 : ℚ) - 800)) * (1000 - 1)) = 51 := by
  with_unfolding_all decide

/-- C5 failing input: a year whose stored counts are monotonically
non-increasing for both populations, on which the code still violates rank
monotonicity: the narrow-population rank at score 794 is 1000 (neither
bracketing score carries narrow data, so the code falls back to the
population total) while the rank at the lower score 792 is only 500. -/
theorem monotonicity_violated_eval :
    monotoneMap stGap.mapCity ∧ monotoneMap stGap.mapInner ∧
    (calculateRank stGap 794).toOption.map (fun r => r.inner_rank) = some 1000 ∧
    (calculateRank stGap 792).toOption.map (fun r => r.inner_rank) = some 500 ∧
    (792 : ℚ) < 794 ∧ ¬ ((1000 : ℤ) ≤ 500) := by
  with_unfolding_all decide

/-- C8 failing input: `calculate_rank(-1)` does raise, and 750.123 has more
than two decimal digits (`750.123 * 100` is not an integer), yet
`calculate_rank(750.123)` does not raise: `np.isclose`'s relative tolerance
`1e-5 * 75012` ≈ 0.75 swallows the 0.3 gap to the nearest integer. -/
theorem precision_check_eval :
    (calculateRank stSmallYear (-1)).isOk = false ∧
    ((750123 / 1000 : ℚ) * 100).den ≠ 1 ∧
    (calculateRank stSmallYear (750123 / 1000)).isOk = true := by
  with_unfolding_all decide

/-- C1 witness: on the scenario table, score 700 is stored with wide count
1000 and `calculate_rank` reports exactly 1000. -/
theorem exact_match_witness :
    resultRank ⟨700, 1000, 1000, 5000, 5000, 20, 4001/50, 20, 4001/50⟩
      Population.city = (1000 : ℤ) :=
  exact_match_returns_stored stScenario .city 700 1000
    (by with_unfolding_all decide) (by decide) (by with_unfolding_all decide)
    (by with_unfolding_all decide) (by with_unfolding_all decide)
    _ (by with_unfolding_all rfl)

/-- C2 witness: on the scenario table, `rank(750)` equals the half-to-even
rounding of `1 + 0.5 * (1000 - 1)`, i.e. 500. -/
theorem interpolated_rank_witness :
    resultRank ⟨750, 500, 500, 5000, 5000, 10, 4501/50, 10, 4501/50⟩
      Population.city =
      roundHalfEven ((1 : ℚ) + ((750 - 800) / ((700 : ℚ) - 800)) * (1000 - 1)) :=
  interpolated_rank_half_even stScenario .city 750 800 700 1 1000
    (by with_unfolding_all decide) (by with_unfolding_all decide)
    (by with_unfolding_all decide) (by with_unfolding_all decide)
    (by with_unfolding_all decide) (by with_unfolding_all decide)
    (by decide) (by decide) (by with_unfolding_all decide)
    (by with_unfolding_all decide) (by with_unfolding_all decide)
    _ (by with_unfolding_all rfl)

/-- C4 witness: on a year whose top stored score is 780, `rank(800) = 1`
and `rank(0) = 1000`, the population total. -/
theorem boundary_rank_witness :
    resultRank ⟨800, 1, 1, 1000, 1000, 1/10, 100, 1/10, 100⟩ Population.city = 1 ∧
    resultRank ⟨0, 1000, 1000, 1000, 1000, 100, 1/10, 100, 1/10⟩ Population.city =
      ((popTotal stSmallYear .city : ℕ) : ℤ) :=
  ⟨(boundary_rank stSmallYear .city 800 (by with_unfolding_all decide)
      (by decide) (by with_unfolding_all decide) (by with_unfolding_all decide)
      _ (by with_unfolding_all rfl)).1 (by with_unfolding_all decide),
   (boundary_rank stSmallYear .city 0 (by with_unfolding_all decide)
      (by decide) (by with_unfolding_all decide) (by with_unfolding_all decide)
      _ (by with_unfolding_all rfl)).2 (by decide) (by with_unfolding_all decide)⟩

/-- C9 witness: the percentage and percentile fields of
`calculate_rank(stScenario, 750)` satisfy the two formulas. -/
theorem percent_formulas_witness :
    (⟨750, 500, 500, 5000, 5000, 10, 4501/50, 10, 4501/50⟩ : RankResult).city_percentage =
      round2 (((500 : ℤ) : ℚ) / ((5000 : ℕ) : ℚ) * 100) ∧
    (⟨750, 500, 500, 5000, 5000, 10, 4501/50, 10, 4501/50⟩ : RankResult).city_percentile =
      round2 ((((5000 : ℕ) : ℚ) - ((500 : ℤ) : ℚ) + 1) / ((5000 : ℕ) : ℚ) * 100) ∧
    (⟨750, 500, 500, 5000, 5000, 10, 4501/50, 10, 4501/50⟩ : RankResult).inner_percentage =
      round2 (((500 : ℤ) : ℚ) / ((5000 : ℕ) : ℚ) * 100) ∧
    (⟨750, 500, 500, 5000, 5000, 10, 4501/50, 10, 4501/50⟩ : RankResult).inner_percentile =
      round2 ((((5000 : ℕ) : ℚ) - ((500 : ℤ) : ℚ) + 1) / ((5000 : ℕ) : ℚ) * 100) :=
  percent_formulas stScenario 750 (by decide) (by decide)
    _ (by with_unfolding_all rfl)

/-- C7 witness: the buckets returned for rank 100 and scheme (3,1,1) on
`threeSchools` are pairwise disjoint and within the requested lengths. -/
theorem buckets_disjoint_bounded_witness :
    (∀ x ∈ exampleBuckets.attack, x ∉ exampleBuckets.stable) ∧
    (∀ x ∈ exampleBuckets.attack, x ∉ exampleBuckets.safe) ∧
    (∀ x ∈ exampleBuckets.stable, x ∉ exampleBuckets.safe) ∧
    exampleBuckets.attack.length ≤ 3 ∧ exampleBuckets.stable.length ≤ 1 ∧
    exampleBuckets.safe.length ≤ 1 :=
  buckets_disjoint_bounded 100 3 1 1 threeSchools exampleBuckets
    (by with_unfolding_all rfl)

/-- C10 witness: the backfilled school with admission rank 72 has a nonzero
admission rank and ratio 0.72 inside `[0.70, 1.60]`. -/
theorem bucket_members_valid_witness :
    (⟨1, 72⟩ : School).adm ≠ 0 ∧ (0.7 : ℚ) ≤ ratio 100 ⟨1, 72⟩ ∧
    ratio 100 ⟨1, 72⟩ ≤ 1.6 :=
  bucket_members_valid 100 3 1 1 threeSchools exampleBuckets ⟨1, 72⟩
    (by with_unfolding_all rfl) (Or.inl (by decide))

end Volunteer
